import Mathlib

/-!
Formal model of `nonconformist/nc.py`: nonconformity scoring functions for
conformal prediction and the two caching adapter classes.

Conventions of the embedding:
* numpy 1-D arrays are `List ℚ`, 2-D arrays are `List (List ℚ)` (rows).
  Machine floats are modelled by exact rationals.
* A float value that may be negative infinity (`-np.inf`) is an `Option ℚ`,
  with `none` standing for `-inf`.
* A numpy `IndexError` / shape error is modelled by an `Option` result
  being `none`.
* Arrays whose object identity matters (the adapters' cached prediction,
  the calibration pool handed to the inverse functions) live in an explicit
  store `Heap`; a fresh allocation models numpy returning a new array
  (`np.sort`, model output, `.copy()`).
-/

namespace Nonconformist

/-- Read entry `(i, j)` of a matrix given as a list of rows, as the numpy
indexing `prediction[i, j]` does; `none` models an `IndexError`. -/
def lookup2 (m : List (List ℚ)) (i j : ℕ) : Option ℚ := do
  let row ← m[i]?
  row[j]?

/-- The recording loop shared by `inverse_probability` and `margin`:
`prob[i] = prediction[i, y[i]]` for `i = 0 .. len(y)-1`.  The recursion walks
the rows in step with `y`, exactly as the loop visits row `i` together with
`y[i]`; `none` models the `IndexError` raised when `y` is longer than the
matrix or some `y[i]` falls outside its row. -/
def trueClassProbs : List (List ℚ) → List ℕ → Option (List ℚ)
  | _, [] => some []
  | [], _ :: _ => none
  | row :: rows, yi :: ys => do
    let p ← row[yi]?
    let rest ← trueClassProbs rows ys
    some (p :: rest)

/-- nc.py `inverse_probability(prediction, y)`: record
`prob[i] = prediction[i, y[i]]` and return `1 - prob`.  The source writes only
into its freshly allocated `prob` buffer, so the function has no effect on its
arguments. -/
def inverse_probability (prediction : List (List ℚ)) (y : List ℕ) :
    Option (List ℚ) :=
  (trueClassProbs prediction y).map (List.map (fun p => 1 - p))

/-- Maximum of two float values of which either may be `-inf` (`none`),
as numpy's maximum computes it. -/
def wmax : Option ℚ → Option ℚ → Option ℚ
  | none, b => b
  | some a, none => some a
  | some a, some b => some (max a b)

/-- numpy row maximum `prediction.max(axis=1)` over one row that may contain
`-inf` entries.  (numpy raises on an empty row; the `none` default is never
reached on the rows the claims quantify over, which all carry a true-class
entry.) -/
def rowMax (row : List (Option ℚ)) : Option ℚ := row.foldr wmax none

/-- The mutation performed by `margin`'s loop:
`prediction[i, y[i]] = -np.inf` for `i = 0 .. len(y)-1`, processing row `i`
together with `y[i]`. -/
def writeNegInf : List (List (Option ℚ)) → List ℕ → List (List (Option ℚ))
  | m, [] => m
  | [], _ :: _ => []
  | row :: rows, yi :: ys => row.set yi none :: writeNegInf rows ys

/-- View of a finite prediction matrix in the `-inf`-capable representation. -/
def toFloatMatrix (m : List (List ℚ)) : List (List (Option ℚ)) :=
  m.map (fun row => row.map some)

/-- The per-sample value returned by `margin`:
`0.5 - ((prob - max) / 2)` where `prob` is the recorded (finite) true-class
value and `max` the mutated row maximum.  When `max` is `-inf`, float
arithmetic yields `0.5 - (+inf) = -inf`, i.e. `none`. -/
def marginScore (p : ℚ) : Option ℚ → Option ℚ
  | none => none
  | some m => some (1 / 2 - (p - m) / 2)

/-- nc.py `margin(prediction, y)`.  The loop records
`prob[i] = prediction[i, y[i]]` and then overwrites that entry with `-np.inf`;
each iteration touches a distinct row, so recording every `prob[i]` first and
then performing every write is the same computation.  Returns the scores
`0.5 - ((prob - prediction.max(axis=1)) / 2)` together with the mutated
matrix; `none` models the `IndexError` of the loop or the shape mismatch of
the final subtraction (numpy size-1 broadcasting is not modelled; no claim
exercises it). -/
def margin (prediction : List (List ℚ)) (y : List ℕ) :
    Option (List (Option ℚ) × List (List (Option ℚ))) := do
  let prob ← trueClassProbs prediction y
  let mutated := writeNegInf (toFloatMatrix prediction) y
  if y.length = prediction.length then
    some (List.zipWith marginScore prob (mutated.map rowMax), mutated)
  else
    none

/-- nc.py `absolute_error(prediction, y)`: elementwise `|prediction - y|`. -/
def absolute_error (prediction y : List ℚ) : List ℚ :=
  List.zipWith (fun p t => |p - t|) prediction y

/-- nc.py `signed_error(prediction, y)`: elementwise `prediction - y`. -/
def signed_error (prediction y : List ℚ) : List ℚ :=
  List.zipWith (fun p t => p - t) prediction y

/-- `np.sort(nc)[::-1]`: the values of `nc` sorted in descending order
(np.sort returns a fresh ascending copy, then the stride-reversed view walks
it backwards). -/
def sortDesc (nc : List ℚ) : List ℚ := (nc.insertionSort (· ≤ ·)).reverse

/-- nc.py `absolute_error_inverse(prediction, nc, significance)`:
`border = max(int(floor(significance * (n + 1))) - 1, 0)` over the descending
sort of `nc`, and per-sample bounds
`(prediction[i] - nc[border], prediction[i] + nc[border])` (the rows of
`np.vstack([...]).T`).  `none` models the `IndexError` of `nc[border]` when
the clamped border is still out of range (the border is clamped to `≥ 0`, so
python negative indexing cannot arise). -/
def absolute_error_inverse (prediction nc : List ℚ) (significance : ℚ) :
    Option (List (ℚ × ℚ)) :=
  let nc' := sortDesc nc
  let border : ℤ := max (⌊significance * ((nc'.length : ℚ) + 1)⌋ - 1) 0
  match nc'[border.toNat]? with
  | some b => some (prediction.map (fun p => (p - b, p + b)))
  | none => none

/-- nc.py `signed_error_inverse(prediction, nc, significance)`:
`upper = max(int(floor((significance / 2) * (n + 1))), 0)` and
`lower = min(int(floor((1 - significance / 2) * (n + 1))), n - 1)` over the
descending sort of `nc`, and per-sample bounds
`(prediction[i] + nc[lower], prediction[i] + nc[upper])`.  A negative clamped
`lower` (possible only when `significance > 2`) would make python index from
the end of the array; that wrap-around is not modelled (`Int.toNat` clamps at
zero), and every claim stays inside `significance ∈ (0, 1)` where both
clamped indices are provably nonnegative. -/
def signed_error_inverse (prediction nc : List ℚ) (significance : ℚ) :
    Option (List (ℚ × ℚ)) :=
  let nc' := sortDesc nc
  let upper : ℤ := max ⌊(significance / 2) * ((nc'.length : ℚ) + 1)⌋ 0
  let lower : ℤ :=
    min ⌊(1 - significance / 2) * ((nc'.length : ℚ) + 1)⌋ ((nc'.length : ℤ) - 1)
  match nc'[lower.toNat]?, nc'[upper.toNat]? with
  | some lo, some hi => some (prediction.map (fun p => (p + lo, p + hi)))
  | _, _ => none

/-- A store of numpy array objects; a reference is an index into `cells`.
numpy handing out a fresh array (`np.sort`, a model's output, `.copy()`) is
modelled by `alloc`. -/
structure Heap (α : Type) where
  cells : List α

/-- Dereference an array object; `none` is a dangling reference (never
produced by the operations modelled here). -/
def Heap.read (h : Heap α) (r : ℕ) : Option α := h.cells[r]?

/-- Allocate a fresh array object and return its reference. -/
def Heap.alloc (h : Heap α) (v : α) : Heap α × ℕ :=
  (⟨h.cells ++ [v]⟩, h.cells.length)

/-- In-place mutation of the array object behind reference `r` (what a caller
does when it writes into an array it was handed). -/
def Heap.write (h : Heap α) (r : ℕ) (v : α) : Heap α := ⟨h.cells.set r v⟩

/-- `absolute_error_inverse` run against the store: `prediction` and `nc` are
read through their references; `np.sort(nc)` allocates a fresh array and the
local name `nc` is rebound to it; nothing is ever written through `ncRef` or
`predRef`. -/
def absolute_error_inverse_run (h : Heap (List ℚ)) (predRef ncRef : ℕ)
    (significance : ℚ) : Option (Heap (List ℚ) × List (ℚ × ℚ)) := do
  let prediction ← h.read predRef
  let nc ← h.read ncRef
  let h1 := (h.alloc (sortDesc nc)).1
  let res ← absolute_error_inverse prediction nc significance
  some (h1, res)

/-- `signed_error_inverse` run against the store, same reading discipline as
`absolute_error_inverse_run`. -/
def signed_error_inverse_run (h : Heap (List ℚ)) (predRef ncRef : ℕ)
    (significance : ℚ) : Option (Heap (List ℚ) × List (ℚ × ℚ)) := do
  let prediction ← h.read predRef
  let nc ← h.read ncRef
  let h1 := (h.alloc (sortDesc nc)).1
  let res ← signed_error_inverse prediction nc significance
  some (h1, res)

/-- The mutable attributes shared by `ProbEstClassifierNc` and `RegressorNc`:
`last_x`, `last_prediction` (a reference into the prediction store), the
`clean` flag, and the wrapped model's state.  (`err_func`, `model_class` and
`model_params` are configuration fixed at construction; the embedding passes
the resulting model behaviour as explicit function arguments.) -/
structure Adapter (M Input : Type) where
  last_x : Option Input
  last_prediction : Option ℕ
  clean : Bool
  model : M

/-- The state both constructors establish: `__init__` sets
`last_x = last_prediction = None` and `clean = False`, with the freshly
instantiated model. -/
def Adapter.init {M Input : Type} (m : M) : Adapter M Input :=
  ⟨none, none, false, m⟩

/-- The guard of `underlying_predict`:
`not self.clean or self.last_x is None or not np.array_equal(self.last_x, x)`.
`np.array_equal` is comparison by value, modelled by decidable equality on
the input type. -/
def cacheMiss {M Input : Type} [DecidableEq Input]
    (s : Adapter M Input) (x : Input) : Bool :=
  !s.clean || decide (s.last_x = none) || !decide (s.last_x = some x)

/-- Everything one `underlying_predict` call yields: the updated store and
adapter state, the reference handed back to the caller, and whether the
wrapped model's inference ran during the call. -/
structure PredictResult (M Input Pred : Type) where
  heap : Heap Pred
  state : Adapter M Input
  ret : Option ℕ
  invoked : Bool

/-- `ProbEstClassifierNc.underlying_predict(x)` with the wrapped model's
inference `predict_proba`.  On a cache miss the model's fresh output array is
allocated and cached (`self.last_x = x; self.last_prediction =
self.model.predict_proba(x); self.clean = True`); both branches then return
`self.last_prediction.copy()`, a freshly allocated copy of the cached array.
The `ret = none` branches model the crash of a clean state that stores no
array or a dangling reference; they are unreachable from `Adapter.init`. -/
def ProbEstClassifierNc.underlying_predict {M Input Pred : Type}
    [DecidableEq Input] (predict_proba : M → Input → Pred)
    (h : Heap Pred) (s : Adapter M Input) (x : Input) :
    PredictResult M Input Pred :=
  if cacheMiss s x then
    let v := predict_proba s.model x
    let (h1, r) := h.alloc v
    let s1 : Adapter M Input :=
      { s with last_x := some x, last_prediction := some r, clean := true }
    let (h2, rc) := h1.alloc v
    ⟨h2, s1, some rc, true⟩
  else
    match s.last_prediction with
    | some r =>
      match h.read r with
      | some v =>
        let (h2, rc) := h.alloc v
        ⟨h2, s, some rc, false⟩
      | none => ⟨h, s, none, false⟩
    | none => ⟨h, s, none, false⟩

/-- `ProbEstClassifierNc.fit(x, y)`: `self.model.fit(x, y); self.clean =
False`.  The wrapped model's training is an opaque state update `mfit`. -/
def ProbEstClassifierNc.fit {M Input TX TY : Type} (mfit : M → TX → TY → M)
    (s : Adapter M Input) (x : TX) (y : TY) : Adapter M Input :=
  { s with model := mfit s.model x y, clean := false }

/-- `ProbEstClassifierNc.calc_nc(x, y)`: `prediction =
self.underlying_predict(x); return self.err_func(prediction, y)`.  The
injected score function receives the returned reference and may read and
write the store. -/
def ProbEstClassifierNc.calc_nc {M Input Pred TY Scores : Type}
    [DecidableEq Input] (predict_proba : M → Input → Pred)
    (err_func : Heap Pred → ℕ → TY → Heap Pred × Scores)
    (h : Heap Pred) (s : Adapter M Input) (x : Input) (y : TY) :
    Option (Heap Pred × Scores) :=
  let res := ProbEstClassifierNc.underlying_predict predict_proba h s x
  res.ret.map (fun r => err_func res.heap r y)

/-- `RegressorNc.underlying_predict(x)`: the same code as the classifier
adapter's method, with the wrapped model's `predict` in place of
`predict_proba`. -/
def RegressorNc.underlying_predict {M Input Pred : Type}
    [DecidableEq Input] (predict : M → Input → Pred)
    (h : Heap Pred) (s : Adapter M Input) (x : Input) :
    PredictResult M Input Pred :=
  if cacheMiss s x then
    let v := predict s.model x
    let (h1, r) := h.alloc v
    let s1 : Adapter M Input :=
      { s with last_x := some x, last_prediction := some r, clean := true }
    let (h2, rc) := h1.alloc v
    ⟨h2, s1, some rc, true⟩
  else
    match s.last_prediction with
    | some r =>
      match h.read r with
      | some v =>
        let (h2, rc) := h.alloc v
        ⟨h2, s, some rc, false⟩
      | none => ⟨h, s, none, false⟩
    | none => ⟨h, s, none, false⟩

/-- `RegressorNc.fit(x, y)`: `self.model.fit(x, y); self.clean = False`. -/
def RegressorNc.fit {M Input TX TY : Type} (mfit : M → TX → TY → M)
    (s : Adapter M Input) (x : TX) (y : TY) : Adapter M Input :=
  { s with model := mfit s.model x y, clean := false }

/-- `RegressorNc.calc_nc(x, y)`: as the classifier adapter's method. -/
def RegressorNc.calc_nc {M Input Pred TY Scores : Type}
    [DecidableEq Input] (predict : M → Input → Pred)
    (err_func : Heap Pred → ℕ → TY → Heap Pred × Scores)
    (h : Heap Pred) (s : Adapter M Input) (x : Input) (y : TY) :
    Option (Heap Pred × Scores) :=
  let res := RegressorNc.underlying_predict predict h s x
  res.ret.map (fun r => err_func res.heap r y)

/-- `RegressorNc.predict(x, nc, significance)`: `prediction =
self.underlying_predict(x); return self.inverse_err_func(prediction, nc,
significance)`, shown here with the inverse score function applied to the
value of the returned array. -/
def RegressorNc.predict {M Input : Type} [DecidableEq Input]
    (predictM : M → Input → List ℚ)
    (inverse_err_func : List ℚ → List ℚ → ℚ → Option (List (ℚ × ℚ)))
    (h : Heap (List ℚ)) (s : Adapter M Input) (x : Input) (nc : List ℚ)
    (significance : ℚ) : Option (List (ℚ × ℚ)) := do
  let res := RegressorNc.underlying_predict predictM h s x
  let r ← res.ret
  let prediction ← res.heap.read r
  inverse_err_func prediction nc significance

/-! Helper lemmas about the descending sort. -/

lemma sortDesc_length (nc : List ℚ) : (sortDesc nc).length = nc.length := by
  simp [sortDesc, List.length_insertionSort]

lemma sortDesc_perm (nc : List ℚ) : (sortDesc nc).Perm nc :=
  (List.reverse_perm _).trans (List.perm_insertionSort _ _)

lemma sortDesc_sorted (nc : List ℚ) : List.Sorted (· ≥ ·) (sortDesc nc) := by
  rw [sortDesc, List.Sorted, List.pairwise_reverse]
  exact (List.sorted_insertionSort (· ≤ ·) nc).imp (fun h => h)

lemma sortDesc_anti {nc : List ℚ} {i j : ℕ} (hij : i ≤ j)
    (hj : j < (sortDesc nc).length) :
    (sortDesc nc).get ⟨j, hj⟩ ≤ (sortDesc nc).get ⟨i, lt_of_le_of_lt hij hj⟩ := by
  have hrefl : IsRefl ℚ (· ≥ ·) := ⟨fun a => le_refl a⟩
  exact (sortDesc_sorted nc).rel_get_of_le (Fin.mk_le_mk.mpr hij)

/-! Helper lemmas about the store. -/

lemma Heap.read_alloc_old {α : Type} (h : Heap α) (v : α) {r : ℕ}
    (hr : r < h.cells.length) : (h.alloc v).1.read r = h.read r := by
  simp only [Heap.alloc, Heap.read]
  exact List.getElem?_append_left hr

lemma Heap.read_alloc_new {α : Type} (h : Heap α) (v : α) :
    (h.alloc v).1.read (h.alloc v).2 = some v := by
  simp [Heap.alloc, Heap.read]

lemma Heap.read_write_ne {α : Type} (h : Heap α) {r r' : ℕ} (hne : r ≠ r')
    (v : α) : (h.write r v).read r' = h.read r' := by
  simp only [Heap.write, Heap.read]
  exact List.getElem?_set_ne hne

lemma Heap.read_lt {α : Type} {h : Heap α} {r : ℕ} {v : α}
    (hr : h.read r = some v) : r < h.cells.length := by
  simpa using (List.getElem?_eq_some.mp hr).1

/-! Helper lemmas about the clamped calibration ranks. -/

lemma absBorder_lt {n : ℕ} (hn : 1 ≤ n) {s : ℚ} (hs1 : s < 1) :
    (max (⌊s * ((n : ℚ) + 1)⌋ - 1) 0).toNat < n := by
  have hfl : ⌊s * ((n : ℚ) + 1)⌋ < (n : ℤ) + 1 := by
    rw [Int.floor_lt]
    push_cast
    have hcast : (1 : ℚ) ≤ (n : ℚ) := by exact_mod_cast hn
    nlinarith
  omega

lemma signedUpper_lt {n : ℕ} (hn : 1 ≤ n) {s : ℚ} (hs0 : 0 < s) (hs1 : s < 1) :
    (max ⌊(s / 2) * ((n : ℚ) + 1)⌋ 0).toNat < n := by
  have hfl : ⌊(s / 2) * ((n : ℚ) + 1)⌋ < (n : ℤ) := by
    rw [Int.floor_lt]
    push_cast
    have hcast : (1 : ℚ) ≤ (n : ℚ) := by exact_mod_cast hn
    nlinarith
  omega

lemma signedLower_lt {n : ℕ} (hn : 1 ≤ n) {s : ℚ} :
    (min ⌊(1 - s / 2) * ((n : ℚ) + 1)⌋ ((n : ℤ) - 1)).toNat < n := by
  omega

lemma signedUpper_le_lower {n : ℕ} (hn : 1 ≤ n) {s : ℚ} (hs0 : 0 < s)
    (hs1 : s < 1) :
    (max ⌊(s / 2) * ((n : ℚ) + 1)⌋ 0).toNat ≤
      (min ⌊(1 - s / 2) * ((n : ℚ) + 1)⌋ ((n : ℤ) - 1)).toNat := by
  have hmono : ⌊(s / 2) * ((n : ℚ) + 1)⌋ ≤ ⌊(1 - s / 2) * ((n : ℚ) + 1)⌋ := by
    apply Int.floor_le_floor
    have hbase : (0 : ℚ) ≤ (n : ℚ) + 1 := by positivity
    nlinarith
  have hlt := signedUpper_lt hn hs0 hs1
  omega

/-! Concrete scenario computations, shared below. -/

lemma sortDesc_scenario : sortDesc [1, 2, 3, 4, 5] = ([5, 4, 3, 2, 1] : List ℚ) := by
  norm_num [sortDesc, List.insertionSort, List.orderedInsert]

lemma absolute_error_inverse_scenario :
    absolute_error_inverse [10, 20] [1, 2, 3, 4, 5] (2 / 5) =
      some [(6, 14), (16, 24)] := by
  have hf : ⌊((2 : ℚ) / 5) * (((5 : ℕ) : ℚ) + 1)⌋ = 2 := by
    rw [Int.floor_eq_iff]
    norm_num
  simp [absolute_error_inverse, sortDesc_scenario, hf]
  norm_num

/-- C2: for every non-empty calibration pool `nc` and significance in (0,1),
`absolute_error_inverse` sorts `nc` descending, selects border index
`max(floor(s*(n+1)) - 1, 0)`, and returns per-sample bounds
`prediction[i] ± nc[border]`; every returned pair has width `2 * nc[border]`,
the same for all samples; and the scenario `nc = [1,2,3,4,5]`, `s = 0.4`
yields bounds `prediction ± 4` (border index 1 of `[5,4,3,2,1]`). -/
theorem absolute_error_inverse_spec (prediction nc : List ℚ) (s : ℚ)
    (hne : nc ≠ []) (hs0 : 0 < s) (hs1 : s < 1) :
    List.Sorted (· ≥ ·) (sortDesc nc) ∧ (sortDesc nc).Perm nc ∧
    (∃ b : ℚ,
      (sortDesc nc)[(max (⌊s * ((nc.length : ℚ) + 1)⌋ - 1) 0).toNat]? =
        some b ∧
      absolute_error_inverse prediction nc s =
        some (prediction.map (fun p => (p - b, p + b))) ∧
      ∀ pr ∈ prediction.map (fun p => (p - b, p + b)), pr.2 - pr.1 = 2 * b) ∧
    absolute_error_inverse [10, 20] [1, 2, 3, 4, 5] (2 / 5) =
      some [(6, 14), (16, 24)] := by
  have hn : 1 ≤ nc.length := List.length_pos.mpr hne
  have hlt : (max (⌊s * ((nc.length : ℚ) + 1)⌋ - 1) 0).toNat <
      (sortDesc nc).length := by
    rw [sortDesc_length]
    exact absBorder_lt hn hs1
  refine ⟨sortDesc_sorted nc, sortDesc_perm nc, ?_, absolute_error_inverse_scenario⟩
  refine ⟨(sortDesc nc).get ⟨_, hlt⟩, ?_, ?_, ?_⟩
  · simp [List.getElem?_eq_getElem hlt]
  · simp only [absolute_error_inverse, sortDesc_length]
    rw [List.getElem?_eq_getElem hlt]
    simp
  · intro pr hpr
    obtain ⟨p, _, rfl⟩ := List.mem_map.mp hpr
    ring

/-- Witness for C2 at `prediction = [10, 20]`, `nc = [1,2,3,4,5]`, `s = 2/5`. -/
theorem absolute_error_inverse_spec_witness :
    (([1, 2, 3, 4, 5] : List ℚ) ≠ [] ∧ (0 : ℚ) < 2 / 5 ∧ (2 : ℚ) / 5 < 1) ∧
    (List.Sorted (· ≥ ·) (sortDesc [1, 2, 3, 4, 5]) ∧
      (sortDesc [1, 2, 3, 4, 5]).Perm [1, 2, 3, 4, 5] ∧
      (∃ b : ℚ,
        (sortDesc [1, 2, 3, 4, 5])[(max (⌊(2 / 5 : ℚ) *
            ((([1, 2, 3, 4, 5] : List ℚ).length : ℚ) + 1)⌋ - 1) 0).toNat]? =
          some b ∧
        absolute_error_inverse [10, 20] [1, 2, 3, 4, 5] (2 / 5) =
          some (([10, 20] : List ℚ).map (fun p => (p - b, p + b))) ∧
        ∀ pr ∈ ([10, 20] : List ℚ).map (fun p => (p - b, p + b)),
          pr.2 - pr.1 = 2 * b) ∧
      absolute_error_inverse [10, 20] [1, 2, 3, 4, 5] (2 / 5) =
        some [(6, 14), (16, 24)]) :=
  ⟨⟨by simp, by norm_num, by norm_num⟩,
    absolute_error_inverse_spec [10, 20] [1, 2, 3, 4, 5] (2 / 5)
      (by simp) (by norm_num) (by norm_num)⟩

/-- Evaluation of `signed_error_inverse` under the claims' hypotheses; shared
by the C5 and C9 theorems. -/
lemma signed_error_inverse_eval (prediction nc : List ℚ) (s : ℚ)
    (hne : nc ≠ []) (hs0 : 0 < s) (hs1 : s < 1) :
    ∃ lo hi : ℚ,
      (sortDesc nc)[(min ⌊(1 - s / 2) * ((nc.length : ℚ) + 1)⌋
          ((nc.length : ℤ) - 1)).toNat]? = some lo ∧
      (sortDesc nc)[(max ⌊(s / 2) * ((nc.length : ℚ) + 1)⌋ 0).toNat]? =
        some hi ∧
      lo ≤ hi ∧
      signed_error_inverse prediction nc s =
        some (prediction.map (fun p => (p + lo, p + hi))) := by
  have hn : 1 ≤ nc.length := List.length_pos.mpr hne
  have hlo : (min ⌊(1 - s / 2) * ((nc.length : ℚ) + 1)⌋
      ((nc.length : ℤ) - 1)).toNat < (sortDesc nc).length := by
    rw [sortDesc_length]
    exact signedLower_lt hn
  have hhi : (max ⌊(s / 2) * ((nc.length : ℚ) + 1)⌋ 0).toNat <
      (sortDesc nc).length := by
    rw [sortDesc_length]
    exact signedUpper_lt hn hs0 hs1
  refine ⟨(sortDesc nc).get ⟨_, hlo⟩, (sortDesc nc).get ⟨_, hhi⟩, ?_, ?_, ?_, ?_⟩
  · simp [List.getElem?_eq_getElem hlo]
  · simp [List.getElem?_eq_getElem hhi]
  · exact sortDesc_anti (signedUpper_le_lower hn hs0 hs1) hlo
  · simp only [signed_error_inverse, sortDesc_length]
    rw [List.getElem?_eq_getElem hlo, List.getElem?_eq_getElem hhi]
    simp

/-- C5: for every non-empty calibration pool `nc` and significance in (0,1),
`signed_error_inverse` sorts `nc` descending, computes
`upper_idx = max(floor((s/2)*(n+1)), 0)` and
`lower_idx = min(floor((1-s/2)*(n+1)), n-1)`, and returns per-sample bounds
`(prediction[i] + nc[lower_idx], prediction[i] + nc[upper_idx])`. -/
theorem signed_error_inverse_spec (prediction nc : List ℚ) (s : ℚ)
    (hne : nc ≠ []) (hs0 : 0 < s) (hs1 : s < 1) :
    List.Sorted (· ≥ ·) (sortDesc nc) ∧ (sortDesc nc).Perm nc ∧
    ∃ lo hi : ℚ,
      (sortDesc nc)[(min ⌊(1 - s / 2) * ((nc.length : ℚ) + 1)⌋
          ((nc.length : ℤ) - 1)).toNat]? = some lo ∧
      (sortDesc nc)[(max ⌊(s / 2) * ((nc.length : ℚ) + 1)⌋ 0).toNat]? =
        some hi ∧
      signed_error_inverse prediction nc s =
        some (prediction.map (fun p => (p + lo, p + hi))) := by
  obtain ⟨lo, hi, h1, h2, _, h4⟩ :=
    signed_error_inverse_eval prediction nc s hne hs0 hs1
  exact ⟨sortDesc_sorted nc, sortDesc_perm nc, lo, hi, h1, h2, h4⟩

/-- Witness for C5 at `prediction = [0]`, `nc = [1,2,3,4,5]`, `s = 1/2`. -/
theorem signed_error_inverse_spec_witness :
    (([1, 2, 3, 4, 5] : List ℚ) ≠ [] ∧ (0 : ℚ) < 1 / 2 ∧ (1 : ℚ) / 2 < 1) ∧
    (List.Sorted (· ≥ ·) (sortDesc [1, 2, 3, 4, 5]) ∧
      (sortDesc [1, 2, 3, 4, 5]).Perm [1, 2, 3, 4, 5] ∧
      ∃ lo hi : ℚ,
        (sortDesc [1, 2, 3, 4, 5])[(min ⌊(1 - (1 / 2 : ℚ) / 2) *
            ((([1, 2, 3, 4, 5] : List ℚ).length : ℚ) + 1)⌋
            ((([1, 2, 3, 4, 5] : List ℚ).length : ℤ) - 1)).toNat]? = some lo ∧
        (sortDesc [1, 2, 3, 4, 5])[(max ⌊((1 / 2 : ℚ) / 2) *
            ((([1, 2, 3, 4, 5] : List ℚ).length : ℚ) + 1)⌋ 0).toNat]? =
          some hi ∧
        signed_error_inverse [0] [1, 2, 3, 4, 5] (1 / 2) =
          some (([0] : List ℚ).map (fun p => (p + lo, p + hi)))) :=
  ⟨⟨by simp, by norm_num, by norm_num⟩,
    signed_error_inverse_spec [0] [1, 2, 3, 4, 5] (1 / 2)
      (by simp) (by norm_num) (by norm_num)⟩

/-- C9: for every non-empty calibration pool and significance in (0,1), the
clamped upper rank never exceeds the clamped lower rank, hence in the
descending sort `nc[lower] ≤ nc[upper]` and every interval returned by
`signed_error_inverse` has its lower bound at most its upper bound. -/
theorem signed_error_inverse_wellformed (prediction nc : List ℚ) (s : ℚ)
    (hne : nc ≠ []) (hs0 : 0 < s) (hs1 : s < 1) :
    (max ⌊(s / 2) * ((nc.length : ℚ) + 1)⌋ 0).toNat ≤
      (min ⌊(1 - s / 2) * ((nc.length : ℚ) + 1)⌋
        ((nc.length : ℤ) - 1)).toNat ∧
    ∃ lo hi : ℚ,
      (sortDesc nc)[(min ⌊(1 - s / 2) * ((nc.length : ℚ) + 1)⌋
          ((nc.length : ℤ) - 1)).toNat]? = some lo ∧
      (sortDesc nc)[(max ⌊(s / 2) * ((nc.length : ℚ) + 1)⌋ 0).toNat]? =
        some hi ∧
      lo ≤ hi ∧
      ∃ l, signed_error_inverse prediction nc s = some l ∧
        ∀ pr ∈ l, pr.1 ≤ pr.2 := by
  have hn : 1 ≤ nc.length := List.length_pos.mpr hne
  obtain ⟨lo, hi, h1, h2, h3, h4⟩ :=
    signed_error_inverse_eval prediction nc s hne hs0 hs1
  refine ⟨signedUpper_le_lower hn hs0 hs1, lo, hi, h1, h2, h3, _, h4, ?_⟩
  intro pr hpr
  obtain ⟨p, _, rfl⟩ := List.mem_map.mp hpr
  simpa using h3

/-- Witness for C9 at `prediction = [0]`, `nc = [1,2,3,4,5]`, `s = 1/2`. -/
theorem signed_error_inverse_wellformed_witness :
    (([1, 2, 3, 4, 5] : List ℚ) ≠ [] ∧ (0 : ℚ) < 1 / 2 ∧ (1 : ℚ) / 2 < 1) ∧
    ((max ⌊((1 / 2 : ℚ) / 2) * ((([1, 2, 3, 4, 5] : List ℚ).length : ℚ) + 1)⌋
        0).toNat ≤
      (min ⌊(1 - (1 / 2 : ℚ) / 2) *
          ((([1, 2, 3, 4, 5] : List ℚ).length : ℚ) + 1)⌋
        ((([1, 2, 3, 4, 5] : List ℚ).length : ℤ) - 1)).toNat ∧
    ∃ lo hi : ℚ,
      (sortDesc [1, 2, 3, 4, 5])[(min ⌊(1 - (1 / 2 : ℚ) / 2) *
          ((([1, 2, 3, 4, 5] : List ℚ).length : ℚ) + 1)⌋
          ((([1, 2, 3, 4, 5] : List ℚ).length : ℤ) - 1)).toNat]? = some lo ∧
      (sortDesc [1, 2, 3, 4, 5])[(max ⌊((1 / 2 : ℚ) / 2) *
          ((([1, 2, 3, 4, 5] : List ℚ).length : ℚ) + 1)⌋ 0).toNat]? =
        some hi ∧
      lo ≤ hi ∧
      ∃ l, signed_error_inverse [0] [1, 2, 3, 4, 5] (1 / 2) = some l ∧
        ∀ pr ∈ l, pr.1 ≤ pr.2) :=
  ⟨⟨by simp, by norm_num, by norm_num⟩,
    signed_error_inverse_wellformed [0] [1, 2, 3, 4, 5] (1 / 2)
      (by simp) (by norm_num) (by norm_num)⟩

lemma signed_error_inverse_scenario :
    signed_error_inverse [0] [1, 2, 3, 4, 5] (3 / 5) = some [(1, 4)] := by
  have hup : ⌊((3 / 5 : ℚ) / 2) * (((5 : ℕ) : ℚ) + 1)⌋ = 1 := by
    rw [Int.floor_eq_iff]
    norm_num
  have hlow : ⌊(1 - (3 / 5 : ℚ) / 2) * (((5 : ℕ) : ℚ) + 1)⌋ = 4 := by
    rw [Int.floor_eq_iff]
    norm_num
  simp [signed_error_inverse, sortDesc_scenario, hup, hlow]
  norm_num
  rfl

/-- C10: neither inverse function ever writes through the caller's references:
whatever store the call returns reads back the same array for the calibration
pool (and the prediction) as the store it started from, because `np.sort(nc)`
works on a freshly allocated copy. -/
theorem inverse_functions_leave_nc_unchanged (h : Heap (List ℚ))
    (predRef ncRef : ℕ) (s : ℚ) :
    (∀ h1 res, absolute_error_inverse_run h predRef ncRef s = some (h1, res) →
      h1.read ncRef = h.read ncRef ∧ h1.read predRef = h.read predRef) ∧
    (∀ h1 res, signed_error_inverse_run h predRef ncRef s = some (h1, res) →
      h1.read ncRef = h.read ncRef ∧ h1.read predRef = h.read predRef) := by
  constructor
  · intro h1 res hrun
    cases hp : h.read predRef with
    | none => simp [absolute_error_inverse_run, hp] at hrun
    | some pred =>
      cases hnc : h.read ncRef with
      | none => simp [absolute_error_inverse_run, hp, hnc] at hrun
      | some ncv =>
        cases hres : absolute_error_inverse pred ncv s with
        | none => simp [absolute_error_inverse_run, hp, hnc, hres] at hrun
        | some r =>
          simp only [absolute_error_inverse_run, hp, hnc, hres,
            Option.bind_eq_bind, Option.some_bind, Option.some.injEq,
            Prod.mk.injEq] at hrun
          obtain ⟨rfl, rfl⟩ := hrun
          exact ⟨(Heap.read_alloc_old h _ (Heap.read_lt hnc)).trans hnc,
            (Heap.read_alloc_old h _ (Heap.read_lt hp)).trans hp⟩
  · intro h1 res hrun
    cases hp : h.read predRef with
    | none => simp [signed_error_inverse_run, hp] at hrun
    | some pred =>
      cases hnc : h.read ncRef with
      | none => simp [signed_error_inverse_run, hp, hnc] at hrun
      | some ncv =>
        cases hres : signed_error_inverse pred ncv s with
        | none => simp [signed_error_inverse_run, hp, hnc, hres] at hrun
        | some r =>
          simp only [signed_error_inverse_run, hp, hnc, hres,
            Option.bind_eq_bind, Option.some_bind, Option.some.injEq,
            Prod.mk.injEq] at hrun
          obtain ⟨rfl, rfl⟩ := hrun
          exact ⟨(Heap.read_alloc_old h _ (Heap.read_lt hnc)).trans hnc,
            (Heap.read_alloc_old h _ (Heap.read_lt hp)).trans hp⟩

/-- Witness for C10: a store holding the prediction array at reference 0 and
the calibration pool at reference 1; both runs leave both references reading
back what they held before. -/
theorem inverse_functions_leave_nc_unchanged_witness :
    (absolute_error_inverse_run ⟨[[10, 20], [1, 2, 3, 4, 5]]⟩ 0 1 (2 / 5) =
        some (⟨[[10, 20], [1, 2, 3, 4, 5], [5, 4, 3, 2, 1]]⟩,
          [(6, 14), (16, 24)]) ∧
      (Heap.read ⟨[[10, 20], [1, 2, 3, 4, 5], [5, 4, 3, 2, 1]]⟩ 1 =
          Heap.read (⟨[[10, 20], [1, 2, 3, 4, 5]]⟩ : Heap (List ℚ)) 1 ∧
        Heap.read ⟨[[10, 20], [1, 2, 3, 4, 5], [5, 4, 3, 2, 1]]⟩ 0 =
          Heap.read (⟨[[10, 20], [1, 2, 3, 4, 5]]⟩ : Heap (List ℚ)) 0)) ∧
    (signed_error_inverse_run ⟨[[0], [1, 2, 3, 4, 5]]⟩ 0 1 (3 / 5) =
        some (⟨[[0], [1, 2, 3, 4, 5], [5, 4, 3, 2, 1]]⟩, [(1, 4)]) ∧
      (Heap.read ⟨[[0], [1, 2, 3, 4, 5], [5, 4, 3, 2, 1]]⟩ 1 =
          Heap.read (⟨[[0], [1, 2, 3, 4, 5]]⟩ : Heap (List ℚ)) 1 ∧
        Heap.read ⟨[[0], [1, 2, 3, 4, 5], [5, 4, 3, 2, 1]]⟩ 0 =
          Heap.read (⟨[[0], [1, 2, 3, 4, 5]]⟩ : Heap (List ℚ)) 0)) := by
  have hrunA : absolute_error_inverse_run ⟨[[10, 20], [1, 2, 3, 4, 5]]⟩ 0 1
      (2 / 5) = some (⟨[[10, 20], [1, 2, 3, 4, 5], [5, 4, 3, 2, 1]]⟩,
        [(6, 14), (16, 24)]) := by
    simp [absolute_error_inverse_run, Heap.read, Heap.alloc,
      absolute_error_inverse_scenario, sortDesc_scenario]
  have hrunS : signed_error_inverse_run ⟨[[0], [1, 2, 3, 4, 5]]⟩ 0 1 (3 / 5) =
      some (⟨[[0], [1, 2, 3, 4, 5], [5, 4, 3, 2, 1]]⟩, [(1, 4)]) := by
    simp [signed_error_inverse_run, Heap.read, Heap.alloc,
      signed_error_inverse_scenario, sortDesc_scenario]
  exact ⟨⟨hrunA,
      (inverse_functions_leave_nc_unchanged ⟨[[10, 20], [1, 2, 3, 4, 5]]⟩
        0 1 (2 / 5)).1 _ _ hrunA⟩,
    ⟨hrunS,
      (inverse_functions_leave_nc_unchanged ⟨[[0], [1, 2, 3, 4, 5]]⟩
        0 1 (3 / 5)).2 _ _ hrunS⟩⟩

/-! Algebra of the pointwise regression error functions. -/

lemma absolute_error_comm : ∀ p y : List ℚ,
    absolute_error p y = absolute_error y p
  | [], [] => rfl
  | [], _ :: _ => rfl
  | _ :: _, [] => rfl
  | b :: t, c :: u => by
    have e1 : absolute_error (b :: t) (c :: u) = |b - c| :: absolute_error t u := rfl
    have e2 : absolute_error (c :: u) (b :: t) = |c - b| :: absolute_error u t := rfl
    rw [e1, e2, abs_sub_comm, absolute_error_comm t u]

lemma absolute_error_nonneg : ∀ p y : List ℚ, ∀ a ∈ absolute_error p y, 0 ≤ a
  | [], y => by simp [absolute_error]
  | _ :: _, [] => by simp [absolute_error]
  | b :: t, c :: u => by
    intro a ha
    have e1 : absolute_error (b :: t) (c :: u) = |b - c| :: absolute_error t u := rfl
    rw [e1, List.mem_cons] at ha
    rcases ha with rfl | ha
    · exact abs_nonneg _
    · exact absolute_error_nonneg t u a ha

lemma signed_error_neg : ∀ p y : List ℚ,
    signed_error p y = (signed_error y p).map (fun a => -a)
  | [], [] => rfl
  | [], _ :: _ => rfl
  | _ :: _, [] => rfl
  | b :: t, c :: u => by
    have e1 : signed_error (b :: t) (c :: u) = (b - c) :: signed_error t u := rfl
    have e2 : signed_error (c :: u) (b :: t) = (c - b) :: signed_error u t := rfl
    rw [e1, e2, List.map_cons, neg_sub, signed_error_neg t u]

/-- C8: for equal-length arrays, `absolute_error` is symmetric with every
element nonnegative, and `signed_error(p, y)` is the elementwise negation of
`signed_error(y, p)`. -/
theorem error_function_algebra (p y : List ℚ) (h : p.length = y.length) :
    absolute_error p y = absolute_error y p ∧
    (∀ a ∈ absolute_error p y, 0 ≤ a) ∧
    signed_error p y = (signed_error y p).map (fun a => -a) :=
  ⟨absolute_error_comm p y, absolute_error_nonneg p y, signed_error_neg p y⟩

/-- Witness for C8 at `p = [1, 5]`, `y = [3, 2]`. -/
theorem error_function_algebra_witness :
    ([1, 5] : List ℚ).length = ([3, 2] : List ℚ).length ∧
    (absolute_error [1, 5] [3, 2] = absolute_error [3, 2] [1, 5] ∧
      (∀ a ∈ absolute_error [1, 5] [3, 2], 0 ≤ a) ∧
      signed_error [1, 5] [3, 2] =
        (signed_error [3, 2] [1, 5]).map (fun a => -a)) :=
  ⟨rfl, error_function_algebra [1, 5] [3, 2] rfl⟩

/-! Helper lemmas for the classification score functions. -/

lemma zipWith_getElem? {α β γ : Type} (f : α → β → γ) :
    ∀ (as : List α) (bs : List β) (i : ℕ) (a : α) (b : β),
      as[i]? = some a → bs[i]? = some b →
      (List.zipWith f as bs)[i]? = some (f a b)
  | [], _, i, a, b => by
    intro ha _
    simp at ha
  | _ :: _, [], i, a, b => by
    intro _ hb
    simp at hb
  | x :: xs, z :: zs, 0, a, b => by
    intro ha hb
    simp only [List.getElem?_cons_zero, Option.some.injEq] at ha hb
    subst ha
    subst hb
    simp
  | x :: xs, z :: zs, n + 1, a, b => by
    intro ha hb
    simp only [List.getElem?_cons_succ] at ha hb
    simpa using zipWith_getElem? f xs zs n a b ha hb

lemma trueClassProbs_spec :
    ∀ (m : List (List ℚ)) (y : List ℕ) (l : List ℚ),
      trueClassProbs m y = some l →
      l.length = y.length ∧
      ∀ (i yi : ℕ) (row : List ℚ), y[i]? = some yi → m[i]? = some row →
        ∃ p, row[yi]? = some p ∧ l[i]? = some p
  | m, [], l => by
    intro h
    have hl : l = [] := by
      cases m <;> simpa [trueClassProbs] using h.symm
    subst hl
    exact ⟨rfl, by intro i yi row hy; simp at hy⟩
  | [], _ :: _, l => by
    intro h
    simp [trueClassProbs] at h
  | row :: rows, yi :: ys, l => by
    intro h
    simp only [trueClassProbs, Option.bind_eq_bind] at h
    cases hp : row[yi]? with
    | none =>
      rw [hp] at h
      simp at h
    | some p =>
      rw [hp] at h
      simp only [Option.some_bind] at h
      cases hrec : trueClassProbs rows ys with
      | none =>
        rw [hrec] at h
        simp at h
      | some rest =>
        rw [hrec] at h
        simp only [Option.some_bind, Option.some.injEq] at h
        subst h
        obtain ⟨ihlen, ihspec⟩ := trueClassProbs_spec rows ys rest hrec
        refine ⟨by simp [ihlen], ?_⟩
        intro i yi2 row2 hy hm
        cases i with
        | zero =>
          simp only [List.getElem?_cons_zero, Option.some.injEq] at hy hm
          subst hy
          subst hm
          exact ⟨p, hp, by simp⟩
        | succ n =>
          simp only [List.getElem?_cons_succ] at hy hm ⊢
          exact ihspec n yi2 row2 hy hm

lemma trueClassProbs_total :
    ∀ (m : List (List ℚ)) (y : List ℕ),
      y.length ≤ m.length →
      (∀ (i yi : ℕ) (row : List ℚ), y[i]? = some yi → m[i]? = some row →
        yi < row.length) →
      ∃ l, trueClassProbs m y = some l
  | m, [] => by
    intro _ _
    exact ⟨[], by cases m <;> rfl⟩
  | [], _ :: _ => by
    intro hlen _
    simp at hlen
  | row :: rows, yi :: ys => by
    intro hlen hin
    have hyi : yi < row.length := hin 0 yi row (by simp) (by simp)
    obtain ⟨rest, hrest⟩ := trueClassProbs_total rows ys (by simpa using hlen)
      (fun i yi2 row2 hy hm =>
        hin (i + 1) yi2 row2 (by simpa using hy) (by simpa using hm))
    refine ⟨row.get ⟨yi, hyi⟩ :: rest, ?_⟩
    have hp : row[yi]? = some (row.get ⟨yi, hyi⟩) := by
      simp [List.getElem?_eq_getElem hyi]
    simp [trueClassProbs, hp, hrest]

lemma writeNegInf_length :
    ∀ (m : List (List (Option ℚ))) (y : List ℕ),
      (writeNegInf m y).length = m.length
  | m, [] => by cases m <;> rfl
  | [], _ :: _ => rfl
  | row :: rows, yi :: ys => by
    simp only [writeNegInf, List.length_cons]
    rw [writeNegInf_length rows ys]

lemma writeNegInf_getElem :
    ∀ (m : List (List (Option ℚ))) (y : List ℕ) (i yi : ℕ)
      (row : List (Option ℚ)),
      y[i]? = some yi → m[i]? = some row →
      (writeNegInf m y)[i]? = some (row.set yi none)
  | _, [], i, yi, row => by
    intro hy _
    simp at hy
  | [], _ :: _, i, yi, row => by
    intro _ hm
    simp at hm
  | r :: rows, y0 :: ys, 0, yi, row => by
    intro hy hm
    simp only [List.getElem?_cons_zero, Option.some.injEq] at hy hm
    subst hy
    subst hm
    simp [writeNegInf]
  | r :: rows, y0 :: ys, n + 1, yi, row => by
    intro hy hm
    simp only [List.getElem?_cons_succ] at hy hm
    simpa [writeNegInf] using writeNegInf_getElem rows ys n yi row hy hm

lemma rowMax_set_none :
    ∀ (row : List ℚ) (j : ℕ), j < row.length →
      rowMax ((row.map some).set j none) = rowMax ((row.eraseIdx j).map some)
  | [], j => by
    intro h
    simp at h
  | a :: t, 0 => by
    intro _
    simp only [List.map_cons, List.set_cons_zero, List.eraseIdx_cons_zero]
    rfl
  | a :: t, j + 1 => by
    intro h
    have ih := rowMax_set_none t j (by simpa using h)
    simp only [List.map_cons, List.set_cons_succ, List.eraseIdx_cons_succ]
    show wmax (some a) (rowMax ((t.map some).set j none)) =
      wmax (some a) (rowMax ((t.eraseIdx j).map some))
    rw [ih]

lemma rowMax_mem :
    ∀ l : List ℚ, l ≠ [] → ∃ mx, rowMax (l.map some) = some mx ∧ mx ∈ l
  | [], h => absurd rfl h
  | [a], _ => ⟨a, rfl, by simp⟩
  | a :: b :: t, _ => by
    obtain ⟨mx, hmx, hmem⟩ := rowMax_mem (b :: t) (by simp)
    refine ⟨max a mx, ?_, ?_⟩
    · show wmax (some a) (rowMax ((b :: t).map some)) = some (max a mx)
      rw [hmx]
      rfl
    · rcases max_cases a mx with ⟨h1, _⟩ | ⟨h1, _⟩ <;> rw [h1]
      · exact List.mem_cons_self a _
      · exact List.mem_cons_of_mem a hmem

/-- Specification-side view used by the C3/C4 statements: the maximum of the
entries of `row` other than the one at index `j` — numpy's maximum over the
remaining entries, `-inf` (`none`) when no other entry exists. -/
def maxRemaining (row : List ℚ) (j : ℕ) : Option ℚ :=
  rowMax ((row.eraseIdx j).map some)

/-- Full characterization of a successful `margin` call; shared by the C3 and
C4 theorems. -/
lemma margin_spec (prediction : List (List ℚ)) (y : List ℕ)
    (hlen : y.length = prediction.length)
    (hin : ∀ (i yi : ℕ) (row : List ℚ), y[i]? = some yi →
      prediction[i]? = some row → yi < row.length) :
    ∃ scores mutated,
      margin prediction y = some (scores, mutated) ∧
      scores.length = y.length ∧
      mutated.length = prediction.length ∧
      ∀ (i yi : ℕ) (row : List ℚ), y[i]? = some yi → prediction[i]? = some row →
        mutated[i]? = some ((row.map some).set yi none) ∧
        ∃ p, row[yi]? = some p ∧
          scores[i]? = some (marginScore p (maxRemaining row yi)) := by
  obtain ⟨prob, hprob⟩ := trueClassProbs_total prediction y (le_of_eq hlen) hin
  obtain ⟨hplen, hpspec⟩ := trueClassProbs_spec prediction y prob hprob
  have hmutlen : (writeNegInf (toFloatMatrix prediction) y).length =
      prediction.length := by
    rw [writeNegInf_length]
    simp [toFloatMatrix]
  have hmargin : margin prediction y =
      some (List.zipWith marginScore prob
        ((writeNegInf (toFloatMatrix prediction) y).map rowMax),
        writeNegInf (toFloatMatrix prediction) y) := by
    simp [margin, hprob, hlen]
  refine ⟨_, _, hmargin, ?_, hmutlen, ?_⟩
  · rw [List.length_zipWith, hplen, List.length_map, hmutlen, hlen, min_self]
  · intro i yi row hy hm
    have hFm : (toFloatMatrix prediction)[i]? = some (row.map some) := by
      simp [toFloatMatrix, List.getElem?_map, hm]
    have hmuti : (writeNegInf (toFloatMatrix prediction) y)[i]? =
        some ((row.map some).set yi none) :=
      writeNegInf_getElem _ _ i yi _ hy hFm
    refine ⟨hmuti, ?_⟩
    obtain ⟨p, hp, hprobi⟩ := hpspec i yi row hy hm
    refine ⟨p, hp, ?_⟩
    have hmax : ((writeNegInf (toFloatMatrix prediction) y).map rowMax)[i]? =
        some (maxRemaining row yi) := by
      rw [List.getElem?_map, hmuti, Option.map_some']
      rw [rowMax_set_none row yi (hin i yi row hy hm)]
      rfl
    exact zipWith_getElem? marginScore prob _ i p _ hprobi hmax

/-- C3: for every aligned prediction matrix and in-range label vector,
`margin` returns for each sample `i` the value
`0.5 - (true_prob - max_remaining) / 2` where `true_prob` is the original
`prediction[i, y[i]]` and `max_remaining` the row maximum over the other
entries; as a side effect exactly the entry `(i, y[i])` of each sample's row
is overwritten with `-inf`, and no other entry is modified. -/
theorem margin_formula_and_mutation (prediction : List (List ℚ)) (y : List ℕ)
    (hlen : y.length = prediction.length)
    (hin : ∀ (i yi : ℕ) (row : List ℚ), y[i]? = some yi →
      prediction[i]? = some row → yi < row.length) :
    ∃ scores mutated,
      margin prediction y = some (scores, mutated) ∧
      scores.length = y.length ∧
      mutated.length = prediction.length ∧
      ∀ (i yi : ℕ) (row : List ℚ), y[i]? = some yi →
        prediction[i]? = some row →
        (∃ p, row[yi]? = some p ∧
          scores[i]? = some (marginScore p (maxRemaining row yi))) ∧
        ∃ mrow, mutated[i]? = some mrow ∧ mrow.length = row.length ∧
          mrow[yi]? = some none ∧
          ∀ j : ℕ, j ≠ yi → mrow[j]? = (row[j]?).map some := by
  obtain ⟨scores, mutated, hm, hsl, hml, hspec⟩ :=
    margin_spec prediction y hlen hin
  refine ⟨scores, mutated, hm, hsl, hml, ?_⟩
  intro i yi row hy hrow
  obtain ⟨hmuti, p, hp, hsc⟩ := hspec i yi row hy hrow
  refine ⟨⟨p, hp, hsc⟩, (row.map some).set yi none, hmuti, by simp, ?_, ?_⟩
  · exact List.getElem?_set_eq_of_lt none
      (by simpa using hin i yi row hy hrow)
  · intro j hj
    rw [List.getElem?_set_ne (Ne.symm hj), List.getElem?_map]

/-- Witness for C3 at `prediction = [[1, 0]]`, `y = [0]`. -/
theorem margin_formula_and_mutation_witness :
    (([0] : List ℕ).length = ([[1, 0]] : List (List ℚ)).length ∧
      (∀ (i yi : ℕ) (row : List ℚ), ([0] : List ℕ)[i]? = some yi →
        ([[1, 0]] : List (List ℚ))[i]? = some row → yi < row.length)) ∧
    (∃ scores mutated,
      margin [[1, 0]] [0] = some (scores, mutated) ∧
      scores.length = ([0] : List ℕ).length ∧
      mutated.length = ([[1, 0]] : List (List ℚ)).length ∧
      ∀ (i yi : ℕ) (row : List ℚ), ([0] : List ℕ)[i]? = some yi →
        ([[1, 0]] : List (List ℚ))[i]? = some row →
        (∃ p, row[yi]? = some p ∧
          scores[i]? = some (marginScore p (maxRemaining row yi))) ∧
        ∃ mrow, mutated[i]? = some mrow ∧ mrow.length = row.length ∧
          mrow[yi]? = some none ∧
          ∀ j : ℕ, j ≠ yi → mrow[j]? = (row[j]?).map some) := by
  have hin : ∀ (i yi : ℕ) (row : List ℚ), ([0] : List ℕ)[i]? = some yi →
      ([[1, 0]] : List (List ℚ))[i]? = some row → yi < row.length := by
    intro i yi row hy hm
    cases i with
    | zero =>
      simp only [List.getElem?_cons_zero, Option.some.injEq] at hy hm
      subst hy
      subst hm
      simp
    | succ n => simp at hy
  exact ⟨⟨rfl, hin⟩, margin_formula_and_mutation [[1, 0]] [0] rfl hin⟩

/-- Counterexample to C4 as stated: the prediction matrix `[[0, 1]]` has a
valid probability row and `y = [0]` is in range, yet `margin` returns the
score 1, which lies outside `[-0.5, 0.5]`. -/
theorem margin_range_counterexample :
    margin [[0, 1]] [0] = some ([some 1], [[none, some 1]]) ∧
    ¬ ((1 : ℚ) ≤ 1 / 2) := by
  constructor
  · simp [margin, trueClassProbs, writeNegInf, toFloatMatrix, rowMax, wmax,
      marginScore]
    norm_num
  · norm_num

/-- C4 amended: for aligned shapes, in-range labels, valid probability rows
and at least two classes per row, every `margin` score is a finite value in
`[0, 1]` (not `[-0.5, 0.5]` as claimed: see `margin_range_counterexample`;
with a single class the score is not even finite). -/
theorem margin_output_range (prediction : List (List ℚ)) (y : List ℕ)
    (hlen : y.length = prediction.length)
    (hin : ∀ (i yi : ℕ) (row : List ℚ), y[i]? = some yi →
      prediction[i]? = some row → yi < row.length)
    (hdist : ∀ row ∈ prediction, (∀ q ∈ row, 0 ≤ q) ∧ row.sum = 1)
    (hcols : ∀ row ∈ prediction, 2 ≤ row.length) :
    ∃ scores mutated, margin prediction y = some (scores, mutated) ∧
      ∀ sc ∈ scores, ∃ q, sc = some q ∧ 0 ≤ q ∧ q ≤ 1 := by
  obtain ⟨scores, mutated, hm, hsl, hml, hspec⟩ :=
    margin_spec prediction y hlen hin
  refine ⟨scores, mutated, hm, ?_⟩
  intro sc hsc
  obtain ⟨i, hilt, hgi⟩ := List.mem_iff_getElem.mp hsc
  have hiy : i < y.length := by rw [hsl] at hilt; exact hilt
  have hip : i < prediction.length := hlen ▸ hiy
  have hy : y[i]? = some (y.get ⟨i, hiy⟩) := by
    simp [List.getElem?_eq_getElem hiy]
  have hrowe : prediction[i]? = some (prediction.get ⟨i, hip⟩) := by
    simp [List.getElem?_eq_getElem hip]
  obtain ⟨_, p, hp, hsceq⟩ := hspec i _ _ hy hrowe
  have hscsome : scores[i]? = some sc := by
    rw [List.getElem?_eq_getElem hilt, hgi]
  have hsc2 : sc = marginScore p
      (maxRemaining (prediction.get ⟨i, hip⟩) (y.get ⟨i, hiy⟩)) :=
    Option.some_inj.mp (hscsome.symm.trans hsceq)
  have hrowmem : prediction.get ⟨i, hip⟩ ∈ prediction :=
    List.get_mem prediction i hip
  obtain ⟨hnn, hsum⟩ := hdist _ hrowmem
  have hyilt : y.get ⟨i, hiy⟩ < (prediction.get ⟨i, hip⟩).length :=
    hin i _ _ hy hrowe
  obtain ⟨hplt, hpeq⟩ := List.getElem?_eq_some.mp hp
  have hpmem : p ∈ prediction.get ⟨i, hip⟩ := hpeq ▸ List.getElem_mem hplt
  have hp0 : 0 ≤ p := hnn p hpmem
  have hp1 : p ≤ 1 := by
    have := List.single_le_sum hnn p hpmem
    rwa [hsum] at this
  have hne : (prediction.get ⟨i, hip⟩).eraseIdx (y.get ⟨i, hiy⟩) ≠ [] := by
    have hc := hcols _ hrowmem
    have hl : ((prediction.get ⟨i, hip⟩).eraseIdx (y.get ⟨i, hiy⟩)).length =
        (prediction.get ⟨i, hip⟩).length - 1 := by
      rw [List.length_eraseIdx, if_pos hyilt]
    exact List.length_pos.mp (by rw [hl]; omega)
  obtain ⟨mx, hmx, hmxmem⟩ := rowMax_mem _ hne
  have hmxrow : mx ∈ prediction.get ⟨i, hip⟩ :=
    List.eraseIdx_subset _ _ hmxmem
  have hmx0 : 0 ≤ mx := hnn mx hmxrow
  have hmx1 : mx ≤ 1 := by
    have := List.single_le_sum hnn mx hmxrow
    rwa [hsum] at this
  have hmr : maxRemaining (prediction.get ⟨i, hip⟩) (y.get ⟨i, hiy⟩) =
      some mx := hmx
  refine ⟨1 / 2 - (p - mx) / 2, ?_, by linarith, by linarith⟩
  rw [hsc2, hmr]
  rfl

/-- Witness for the amended C4 at `prediction = [[0, 1]]`, `y = [0]` (the
counterexample input itself: the score 1 is inside the amended range). -/
theorem margin_output_range_witness :
    (([0] : List ℕ).length = ([[0, 1]] : List (List ℚ)).length ∧
      (∀ (i yi : ℕ) (row : List ℚ), ([0] : List ℕ)[i]? = some yi →
        ([[0, 1]] : List (List ℚ))[i]? = some row → yi < row.length) ∧
      (∀ row ∈ ([[0, 1]] : List (List ℚ)),
        (∀ q ∈ row, 0 ≤ q) ∧ row.sum = 1) ∧
      (∀ row ∈ ([[0, 1]] : List (List ℚ)), 2 ≤ row.length)) ∧
    (∃ scores mutated, margin [[0, 1]] [0] = some (scores, mutated) ∧
      ∀ sc ∈ scores, ∃ q, sc = some q ∧ 0 ≤ q ∧ q ≤ 1) := by
  have hin : ∀ (i yi : ℕ) (row : List ℚ), ([0] : List ℕ)[i]? = some yi →
      ([[0, 1]] : List (List ℚ))[i]? = some row → yi < row.length := by
    intro i yi row hy hm
    cases i with
    | zero =>
      simp only [List.getElem?_cons_zero, Option.some.injEq] at hy hm
      subst hy
      subst hm
      simp
    | succ n => simp at hy
  have hdist : ∀ row ∈ ([[0, 1]] : List (List ℚ)),
      (∀ q ∈ row, 0 ≤ q) ∧ row.sum = 1 := by
    intro row hrow
    simp only [List.mem_singleton] at hrow
    subst hrow
    refine ⟨?_, by norm_num⟩
    intro q hq
    rcases List.mem_cons.mp hq with rfl | hq
    · norm_num
    · simp only [List.mem_singleton] at hq
      subst hq
      norm_num
  have hcols : ∀ row ∈ ([[0, 1]] : List (List ℚ)), 2 ≤ row.length := by
    intro row hrow
    simp only [List.mem_singleton] at hrow
    subst hrow
    simp
  exact ⟨⟨rfl, hin, hdist, hcols⟩,
    margin_output_range [[0, 1]] [0] rfl hin hdist hcols⟩

/-- C6: `inverse_probability` returns `1 - prediction[i, y[i]]` for each
sample (a pure computation: the source writes only its own fresh buffer);
when every row is a valid probability distribution the output lies in [0, 1],
and an output element is 0 exactly when the true-class probability is 1; and
the scenario `[[0.7, 0.3], [0.2, 0.8]]` with `y = [0, 1]` yields
`[0.3, 0.2]`. -/
theorem inverse_probability_spec (prediction : List (List ℚ)) (y : List ℕ)
    (hylen : y.length ≤ prediction.length)
    (hin : ∀ (i yi : ℕ) (row : List ℚ), y[i]? = some yi →
      prediction[i]? = some row → yi < row.length) :
    (∃ l, inverse_probability prediction y = some l ∧
      l.length = y.length ∧
      (∀ (i yi : ℕ) (row : List ℚ) (p : ℚ), y[i]? = some yi →
        prediction[i]? = some row → row[yi]? = some p →
        l[i]? = some (1 - p) ∧ (l[i]? = some 0 ↔ p = 1)) ∧
      ((∀ row ∈ prediction, (∀ q ∈ row, 0 ≤ q) ∧ row.sum = 1) →
        ∀ a ∈ l, 0 ≤ a ∧ a ≤ 1)) ∧
    inverse_probability [[7 / 10, 3 / 10], [2 / 10, 8 / 10]] [0, 1] =
      some [3 / 10, 2 / 10] := by
  obtain ⟨prob, hprob⟩ := trueClassProbs_total prediction y hylen hin
  obtain ⟨hplen, hpspec⟩ := trueClassProbs_spec prediction y prob hprob
  refine ⟨⟨prob.map (fun p => 1 - p), ?_, by simp [hplen], ?_, ?_⟩, ?_⟩
  · simp [inverse_probability, hprob]
  · intro i yi row p hy hm hp
    obtain ⟨p2, hp2, hpi⟩ := hpspec i yi row hy hm
    have hpp : p2 = p := Option.some_inj.mp (hp2.symm.trans hp)
    subst hpp
    have hmap : (prob.map (fun q => 1 - q))[i]? = some (1 - p2) := by
      rw [List.getElem?_map, hpi]
      rfl
    refine ⟨hmap, ?_⟩
    rw [hmap]
    constructor
    · intro h0
      have := Option.some_inj.mp h0
      linarith
    · intro h1
      subst h1
      norm_num
  · intro hdist a ha
    obtain ⟨q, hqmem, hqa⟩ := List.mem_map.mp ha
    obtain ⟨i, hilt, hqi⟩ := List.mem_iff_getElem.mp hqmem
    have hiy : i < y.length := hplen ▸ hilt
    have hip : i < prediction.length := lt_of_lt_of_le hiy hylen
    have hy : y[i]? = some (y.get ⟨i, hiy⟩) := by
      simp [List.getElem?_eq_getElem hiy]
    have hm : prediction[i]? = some (prediction.get ⟨i, hip⟩) := by
      simp [List.getElem?_eq_getElem hip]
    obtain ⟨p, hp, hpi⟩ := hpspec i _ _ hy hm
    have hqp : q = p := by
      have h1 : prob[i]? = some q := by
        rw [List.getElem?_eq_getElem hilt, hqi]
      exact Option.some_inj.mp (h1.symm.trans hpi)
    subst hqp
    obtain ⟨hplt, hpeq⟩ := List.getElem?_eq_some.mp hp
    have hpmem : q ∈ prediction.get ⟨i, hip⟩ := hpeq ▸ List.getElem_mem hplt
    obtain ⟨hnn, hsum⟩ := hdist _ (List.get_mem prediction i hip)
    have hq0 : 0 ≤ q := hnn q hpmem
    have hq1 : q ≤ 1 := by
      have := List.single_le_sum hnn q hpmem
      rwa [hsum] at this
    subst hqa
    constructor <;> linarith
  · simp [inverse_probability, trueClassProbs]
    norm_num

/-- Witness for C6 at the scenario input
`prediction = [[0.7, 0.3], [0.2, 0.8]]`, `y = [0, 1]`. -/
theorem inverse_probability_spec_witness :
    (([0, 1] : List ℕ).length ≤
        ([[7 / 10, 3 / 10], [2 / 10, 8 / 10]] : List (List ℚ)).length ∧
      (∀ (i yi : ℕ) (row : List ℚ), ([0, 1] : List ℕ)[i]? = some yi →
        ([[7 / 10, 3 / 10], [2 / 10, 8 / 10]] : List (List ℚ))[i]? = some row →
        yi < row.length)) ∧
    ((∃ l, inverse_probability [[7 / 10, 3 / 10], [2 / 10, 8 / 10]] [0, 1] =
        some l ∧
      l.length = ([0, 1] : List ℕ).length ∧
      (∀ (i yi : ℕ) (row : List ℚ) (p : ℚ),
        ([0, 1] : List ℕ)[i]? = some yi →
        ([[7 / 10, 3 / 10], [2 / 10, 8 / 10]] : List (List ℚ))[i]? = some row →
        row[yi]? = some p →
        l[i]? = some (1 - p) ∧ (l[i]? = some 0 ↔ p = 1)) ∧
      ((∀ row ∈ ([[7 / 10, 3 / 10], [2 / 10, 8 / 10]] : List (List ℚ)),
          (∀ q ∈ row, 0 ≤ q) ∧ row.sum = 1) →
        ∀ a ∈ l, 0 ≤ a ∧ a ≤ 1)) ∧
    inverse_probability [[7 / 10, 3 / 10], [2 / 10, 8 / 10]] [0, 1] =
      some [3 / 10, 2 / 10]) := by
  have hin : ∀ (i yi : ℕ) (row : List ℚ), ([0, 1] : List ℕ)[i]? = some yi →
      ([[7 / 10, 3 / 10], [2 / 10, 8 / 10]] : List (List ℚ))[i]? = some row →
      yi < row.length := by
    intro i yi row hy hm
    match i with
    | 0 =>
      simp only [List.getElem?_cons_zero, Option.some.injEq] at hy hm
      subst hy
      subst hm
      simp
    | 1 =>
      simp only [List.getElem?_cons_succ, List.getElem?_cons_zero,
        Option.some.injEq] at hy hm
      subst hy
      subst hm
      simp
    | n + 2 => simp at hy
  exact ⟨⟨by simp, hin⟩,
    inverse_probability_spec [[7 / 10, 3 / 10], [2 / 10, 8 / 10]] [0, 1]
      (by simp) hin⟩

/-! Helper lemmas for the adapter cache. -/

lemma cacheMiss_of_not_clean {M Input : Type} [DecidableEq Input]
    (s : Adapter M Input) (x : Input) (h : s.clean = false) :
    cacheMiss s x = true := by
  simp [cacheMiss, h]

lemma cacheMiss_false_elim {M Input : Type} [DecidableEq Input]
    {s : Adapter M Input} {x : Input} (h : cacheMiss s x = false) :
    s.clean = true ∧ s.last_x = some x := by
  simp only [cacheMiss, Bool.or_eq_false_iff, Bool.not_eq_false',
    decide_eq_false_iff_not, Bool.not_eq_false, decide_eq_true_eq] at h
  exact ⟨h.1.1, h.2⟩

lemma read_after_two_allocs {α : Type} (h : Heap α) (v w : α) :
    ((h.alloc v).1.alloc w).1.read (h.alloc v).2 = some v := by
  rw [Heap.read_alloc_old ((h.alloc v).1) w (by simp [Heap.alloc])]
  exact Heap.read_alloc_new h v

lemma ProbEst_underlying_predict_miss {M Input Pred : Type} [DecidableEq Input]
    (pp : M → Input → Pred) (h : Heap Pred) (s : Adapter M Input) (x : Input)
    (hmiss : cacheMiss s x = true) :
    ProbEstClassifierNc.underlying_predict pp h s x =
      ⟨((h.alloc (pp s.model x)).1.alloc (pp s.model x)).1,
        ⟨some x, some (h.alloc (pp s.model x)).2, true, s.model⟩,
        some ((h.alloc (pp s.model x)).1.alloc (pp s.model x)).2, true⟩ := by
  rw [ProbEstClassifierNc.underlying_predict, if_pos hmiss]

lemma ProbEst_underlying_predict_hit {M Input Pred : Type} [DecidableEq Input]
    (pp : M → Input → Pred) (h : Heap Pred) (s : Adapter M Input) (x : Input)
    (hmiss : cacheMiss s x = false) (r : ℕ) (v : Pred)
    (hlp : s.last_prediction = some r) (hrv : h.read r = some v) :
    ProbEstClassifierNc.underlying_predict pp h s x =
      ⟨(h.alloc v).1, s, some (h.alloc v).2, false⟩ := by
  rw [ProbEstClassifierNc.underlying_predict, if_neg (by simp [hmiss])]
  simp only [hlp, hrv]

/-- The two adapters' `underlying_predict` methods are the same code. -/
lemma Regressor_underlying_predict_eq {M Input Pred : Type} [DecidableEq Input]
    (pm : M → Input → Pred) (h : Heap Pred) (s : Adapter M Input) (x : Input) :
    RegressorNc.underlying_predict pm h s x =
      ProbEstClassifierNc.underlying_predict pm h s x := rfl

/-- The two adapters' `fit` methods are the same code. -/
lemma Regressor_fit_eq {M Input TX TY : Type} (mfit : M → TX → TY → M)
    (s : Adapter M Input) (x : TX) (y : TY) :
    RegressorNc.fit mfit s x y = ProbEstClassifierNc.fit mfit s x y := rfl

/-- C1: starting from any adapter state whose clean flag is unset (the
constructor's state, and the state left behind by every fit), two consecutive
`underlying_predict` calls with the same by-value input run the wrapped
model's inference exactly once — in the first call and not in the second —
and the second call returns the output cached by the first while leaving the
adapter state untouched; a `fit` in between clears the clean flag, so the
call after it runs inference again.  Stated for both adapter classes. -/
theorem underlying_predict_cache_contract {M Input Pred TX TY : Type}
    [DecidableEq Input] (pp : M → Input → Pred) (mfit : M → TX → TY → M)
    (h0 : Heap Pred) (s0 : Adapter M Input) (x : Input) (tx : TX) (ty : TY)
    (hdirty : s0.clean = false) :
    (∀ r1 r2, r1 = ProbEstClassifierNc.underlying_predict pp h0 s0 x →
      r2 = ProbEstClassifierNc.underlying_predict pp r1.heap r1.state x →
      r1.invoked = true ∧ r2.invoked = false ∧ r2.state = r1.state ∧
      (∃ rc, r2.ret = some rc ∧ r2.heap.read rc = some (pp s0.model x)) ∧
      (ProbEstClassifierNc.fit mfit r1.state tx ty).clean = false ∧
      (ProbEstClassifierNc.underlying_predict pp r1.heap
        (ProbEstClassifierNc.fit mfit r1.state tx ty) x).invoked = true) ∧
    (∀ r1 r2, r1 = RegressorNc.underlying_predict pp h0 s0 x →
      r2 = RegressorNc.underlying_predict pp r1.heap r1.state x →
      r1.invoked = true ∧ r2.invoked = false ∧ r2.state = r1.state ∧
      (∃ rc, r2.ret = some rc ∧ r2.heap.read rc = some (pp s0.model x)) ∧
      (RegressorNc.fit mfit r1.state tx ty).clean = false ∧
      (RegressorNc.underlying_predict pp r1.heap
        (RegressorNc.fit mfit r1.state tx ty) x).invoked = true) := by
  have main : ∀ r1 r2,
      r1 = ProbEstClassifierNc.underlying_predict pp h0 s0 x →
      r2 = ProbEstClassifierNc.underlying_predict pp r1.heap r1.state x →
      r1.invoked = true ∧ r2.invoked = false ∧ r2.state = r1.state ∧
      (∃ rc, r2.ret = some rc ∧ r2.heap.read rc = some (pp s0.model x)) ∧
      (ProbEstClassifierNc.fit mfit r1.state tx ty).clean = false ∧
      (ProbEstClassifierNc.underlying_predict pp r1.heap
        (ProbEstClassifierNc.fit mfit r1.state tx ty) x).invoked = true := by
    intro r1 r2 h1 h2
    have hmiss1 : cacheMiss s0 x = true := cacheMiss_of_not_clean s0 x hdirty
    have e1 := ProbEst_underlying_predict_miss pp h0 s0 x hmiss1
    rw [e1] at h1
    subst h1
    dsimp only at h2
    have hmiss2 : cacheMiss
        (⟨some x, some (h0.alloc (pp s0.model x)).2, true, s0.model⟩ :
          Adapter M Input) x = false := by
      simp [cacheMiss]
    have e2 := ProbEst_underlying_predict_hit pp
      ((h0.alloc (pp s0.model x)).1.alloc (pp s0.model x)).1
      (⟨some x, some (h0.alloc (pp s0.model x)).2, true, s0.model⟩ :
        Adapter M Input) x hmiss2
      (h0.alloc (pp s0.model x)).2 (pp s0.model x) rfl
      (read_after_two_allocs h0 (pp s0.model x) (pp s0.model x))
    rw [e2] at h2
    subst h2
    refine ⟨rfl, rfl, rfl, ?_, rfl, ?_⟩
    · exact ⟨_, rfl, Heap.read_alloc_new _ _⟩
    · have hmiss3 : cacheMiss
          (ProbEstClassifierNc.fit mfit
            (⟨some x, some (h0.alloc (pp s0.model x)).2, true, s0.model⟩ :
              Adapter M Input) tx ty) x = true :=
        cacheMiss_of_not_clean _ x rfl
      rw [ProbEst_underlying_predict_miss pp _ _ x hmiss3]
  refine ⟨main, ?_⟩
  intro r1 r2 h1 h2
  rw [Regressor_underlying_predict_eq] at h1 h2
  simp only [Regressor_underlying_predict_eq, Regressor_fit_eq]
  exact main r1 r2 h1 h2

/-- Witness for C1: a freshly constructed classifier adapter over the trivial
model on an empty store, predicting twice on the same input. -/
theorem underlying_predict_cache_contract_witness :
    ((Adapter.init () : Adapter Unit Bool).clean = false) ∧
    (∀ r1 r2, r1 = ProbEstClassifierNc.underlying_predict
        (fun (_ : Unit) (_ : Bool) => (7 : ℕ)) ⟨[]⟩ (Adapter.init ()) true →
      r2 = ProbEstClassifierNc.underlying_predict
        (fun (_ : Unit) (_ : Bool) => (7 : ℕ)) r1.heap r1.state true →
      r1.invoked = true ∧ r2.invoked = false ∧ r2.state = r1.state ∧
      (∃ rc, r2.ret = some rc ∧ r2.heap.read rc =
        some ((fun (_ : Unit) (_ : Bool) => (7 : ℕ))
          (Adapter.init () : Adapter Unit Bool).model true)) ∧
      (ProbEstClassifierNc.fit (fun m (_ : Unit) (_ : Unit) => m)
        r1.state () ()).clean = false ∧
      (ProbEstClassifierNc.underlying_predict
        (fun (_ : Unit) (_ : Bool) => (7 : ℕ)) r1.heap
        (ProbEstClassifierNc.fit (fun m (_ : Unit) (_ : Unit) => m)
          r1.state () ()) true).invoked = true) :=
  ⟨rfl,
    (underlying_predict_cache_contract (fun (_ : Unit) (_ : Bool) => (7 : ℕ))
      (fun m (_ : Unit) (_ : Unit) => m) ⟨[]⟩ (Adapter.init ()) true () ()
      rfl).1⟩

/-- C7: whether the call misses or hits (a clean state holding a valid cached
reference), `underlying_predict` hands the caller a reference distinct from
the internally cached one, reading back an equal array; hence any write
through the returned reference — including by the score function `calc_nc`
hands it to — leaves the adapter's cached prediction unchanged.  Stated for
both adapter classes. -/
theorem underlying_predict_defensive_copy {M Input Pred : Type}
    [DecidableEq Input] (pp : M → Input → Pred) (h : Heap Pred)
    (s : Adapter M Input) (x : Input)
    (hwf : s.clean = true →
      ∃ r, s.last_prediction = some r ∧ r < h.cells.length) :
    (∃ rc rint,
      (ProbEstClassifierNc.underlying_predict pp h s x).ret = some rc ∧
      (ProbEstClassifierNc.underlying_predict pp h s x).state.last_prediction
        = some rint ∧
      rc ≠ rint ∧
      (ProbEstClassifierNc.underlying_predict pp h s x).heap.read rc =
        (ProbEstClassifierNc.underlying_predict pp h s x).heap.read rint ∧
      ∀ v, ((ProbEstClassifierNc.underlying_predict pp h s x).heap.write rc
          v).read rint =
        (ProbEstClassifierNc.underlying_predict pp h s x).heap.read rint) ∧
    (∃ rc rint,
      (RegressorNc.underlying_predict pp h s x).ret = some rc ∧
      (RegressorNc.underlying_predict pp h s x).state.last_prediction
        = some rint ∧
      rc ≠ rint ∧
      (RegressorNc.underlying_predict pp h s x).heap.read rc =
        (RegressorNc.underlying_predict pp h s x).heap.read rint ∧
      ∀ v, ((RegressorNc.underlying_predict pp h s x).heap.write rc
          v).read rint =
        (RegressorNc.underlying_predict pp h s x).heap.read rint) := by
  have main : ∃ rc rint,
      (ProbEstClassifierNc.underlying_predict pp h s x).ret = some rc ∧
      (ProbEstClassifierNc.underlying_predict pp h s x).state.last_prediction
        = some rint ∧
      rc ≠ rint ∧
      (ProbEstClassifierNc.underlying_predict pp h s x).heap.read rc =
        (ProbEstClassifierNc.underlying_predict pp h s x).heap.read rint ∧
      ∀ v, ((ProbEstClassifierNc.underlying_predict pp h s x).heap.write rc
          v).read rint =
        (ProbEstClassifierNc.underlying_predict pp h s x).heap.read rint := by
    cases hm : cacheMiss s x with
    | true =>
      rw [ProbEst_underlying_predict_miss pp h s x hm]
      dsimp only
      have hne : ((h.alloc (pp s.model x)).1.alloc (pp s.model x)).2 ≠
          (h.alloc (pp s.model x)).2 := by
        simp [Heap.alloc]
      refine ⟨_, _, rfl, rfl, hne, ?_,
        fun v => Heap.read_write_ne _ hne v⟩
      rw [Heap.read_alloc_new, read_after_two_allocs]
    | false =>
      obtain ⟨hclean, _⟩ := cacheMiss_false_elim hm
      obtain ⟨r, hr, hrlt⟩ := hwf hclean
      obtain ⟨v, hvr⟩ : ∃ v, h.read r = some v :=
        ⟨_, List.getElem?_eq_getElem hrlt⟩
      rw [ProbEst_underlying_predict_hit pp h s x hm r v hr hvr]
      dsimp only
      have hne : (h.alloc v).2 ≠ r := by
        simp only [Heap.alloc]
        omega
      refine ⟨_, _, rfl, hr, hne, ?_,
        fun w => Heap.read_write_ne _ hne w⟩
      rw [Heap.read_alloc_new, Heap.read_alloc_old h v hrlt, hvr]
  refine ⟨main, ?_⟩
  simp only [Regressor_underlying_predict_eq]
  exact main

/-- Witness for C7: a freshly constructed adapter over the trivial model on
an empty store. -/
theorem underlying_predict_defensive_copy_witness :
    ((Adapter.init () : Adapter Unit Bool).clean = true →
      ∃ r, (Adapter.init () : Adapter Unit Bool).last_prediction = some r ∧
        r < (⟨[]⟩ : Heap ℕ).cells.length) ∧
    (∃ rc rint,
      (ProbEstClassifierNc.underlying_predict
        (fun (_ : Unit) (_ : Bool) => (7 : ℕ)) ⟨[]⟩ (Adapter.init ())
        true).ret = some rc ∧
      (ProbEstClassifierNc.underlying_predict
        (fun (_ : Unit) (_ : Bool) => (7 : ℕ)) ⟨[]⟩ (Adapter.init ())
        true).state.last_prediction = some rint ∧
      rc ≠ rint ∧
      (ProbEstClassifierNc.underlying_predict
        (fun (_ : Unit) (_ : Bool) => (7 : ℕ)) ⟨[]⟩ (Adapter.init ())
        true).heap.read rc =
        (ProbEstClassifierNc.underlying_predict
          (fun (_ : Unit) (_ : Bool) => (7 : ℕ)) ⟨[]⟩ (Adapter.init ())
          true).heap.read rint ∧
      ∀ v, ((ProbEstClassifierNc.underlying_predict
          (fun (_ : Unit) (_ : Bool) => (7 : ℕ)) ⟨[]⟩ (Adapter.init ())
          true).heap.write rc v).read rint =
        (ProbEstClassifierNc.underlying_predict
          (fun (_ : Unit) (_ : Bool) => (7 : ℕ)) ⟨[]⟩ (Adapter.init ())
          true).heap.read rint) := by
  have hwf : (Adapter.init () : Adapter Unit Bool).clean = true →
      ∃ r, (Adapter.init () : Adapter Unit Bool).last_prediction = some r ∧
        r < (⟨[]⟩ : Heap ℕ).cells.length := by
    intro hc
    simp [Adapter.init] at hc
  exact ⟨hwf,
    (underlying_predict_defensive_copy
      (fun (_ : Unit) (_ : Bool) => (7 : ℕ)) ⟨[]⟩ (Adapter.init ()) true
      hwf).1⟩

end Nonconformist
